import Mathlib

/-!
Verification of the bananawrapped repository's core:
the data-URI codec (src/lib/utils/imageUtils.ts) and the
single-item / batch generation pipeline (calendar generation service).

Machine bytes are modelled as natural numbers below 256, JS strings as
Lean strings, thrown JS errors as the String error component of Except,
and the optional, possibly stateful and possibly throwing progress
callback as a state-transition function returning the new state paired
with an optional thrown error.
-/

namespace BananaWrapped

/-! ### Base64 (models Buffer.from(bytes).toString with base64 encoding,
and the inverse decoding used to read a payload back into bytes) -/

/-- The 64-character base64 alphabet, in index order. -/
def b64Alphabet : List Char :=
  "ABCDEFGHIJKLMNOPQRSTUVWXYZabcdefghijklmnopqrstuvwxyz0123456789+/".data

/-- The character encoding a 6-bit group. -/
def b64Char (n : Nat) : Char := b64Alphabet.getD n 'A'

/-- The 6-bit value of an alphabet character. -/
def b64Val (c : Char) : Nat := b64Alphabet.indexOf c

/-- Standard base64 encoding of a byte sequence, three bytes at a time,
with terminal padding, exactly as Buffer.toString produces it. -/
def base64EncodeList : List Nat → List Char
  | [] => []
  | [a] => [b64Char (a / 4), b64Char (a % 4 * 16), '=', '=']
  | [a, b] => [b64Char (a / 4), b64Char (a % 4 * 16 + b / 16), b64Char (b % 16 * 4), '=']
  | a :: b :: c :: rest =>
    b64Char (a / 4) :: b64Char (a % 4 * 16 + b / 16) ::
      b64Char (b % 16 * 4 + c / 64) :: b64Char (c % 64) :: base64EncodeList rest

/-- Standard base64 decoding, four characters at a time, honouring the
padding characters. Models the byte-level decoding a consumer of the
data URI performs on the payload. -/
def base64DecodeList : List Char → List Nat
  | c1 :: c2 :: c3 :: c4 :: rest =>
    if c3 = '=' then [b64Val c1 * 4 + b64Val c2 / 16]
    else if c4 = '=' then
      [b64Val c1 * 4 + b64Val c2 / 16, b64Val c2 % 16 * 16 + b64Val c3 / 4]
    else
      (b64Val c1 * 4 + b64Val c2 / 16) :: (b64Val c2 % 16 * 16 + b64Val c3 / 4) ::
        (b64Val c3 % 4 * 64 + b64Val c4) :: base64DecodeList rest
  | _ => []

/-! ### Data-URI codec: src/lib/utils/imageUtils.ts -/

/-- Match a literal character sequence at the front of a string,
returning the remainder on success. -/
def dropLit : List Char → List Char → Option (List Char)
  | [], s => some s
  | _ :: _, [] => none
  | c :: cs, d :: ds => if d = c then dropLit cs ds else none

/-- The common structure of the two imageUtils regexes:
data:image\/ then [^;]+ then ;base64, — returns the [^;]+ subtype
group and the remainder after the comma. Backtracking cannot help the
character class [^;]+ past a semicolon, so it always denotes the
(non-empty) run up to the first semicolon. -/
def matchImageDataUri (s : List Char) : Option (List Char × List Char) :=
  match dropLit "data:image/".data s with
  | none => none
  | some s1 =>
    let sub := s1.takeWhile (fun c => c ≠ ';')
    let rest := s1.dropWhile (fun c => c ≠ ';')
    if sub = [] then none
    else
      match dropLit ";base64,".data rest with
      | none => none
      | some payload => some (sub, payload)

/-- The JS line terminators, which the regex dot does not match:
line feed, carriage return, line separator U+2028 and paragraph
separator U+2029. -/
def jsLineTerminators : List Char := ['\n', '\r', '\u2028', '\u2029']

/-- extractBase64FromDataUri (imageUtils.ts line 11): matches the
JS regex anchored ^data:image\/[^;]+;base64,(.+)$ and returns the
captured payload, else the invalid-format error. The capture (.+)
demands a non-empty payload in which the dot cannot cross a line
terminator, and the multiline-free dollar is the very end of the
string, so the payload must be non-empty and free of the four JS
line terminators. -/
def extractBase64FromDataUri (dataUri : String) : Except String String :=
  match matchImageDataUri dataUri.data with
  | some (_, payload) =>
    if payload = [] ∨ ∃ c ∈ payload, c ∈ jsLineTerminators then
      .error "Invalid data URI format"
    else .ok (String.mk payload)
  | none => .error "Invalid data URI format"

/-- extractMediaTypeFromDataUri (imageUtils.ts line 25): matches the
JS regex ^data:(image\/[^;]+);base64, — no end anchor, so the payload
region is unconstrained — and returns the parenthesised media-type
group. -/
def extractMediaTypeFromDataUri (dataUri : String) : Except String String :=
  match matchImageDataUri dataUri.data with
  | some (sub, _) => .ok (String.mk ("image/".data ++ sub))
  | none => .error "Invalid data URI format"

/-- uint8ArrayToDataUri (imageUtils.ts line 39). -/
def uint8ArrayToDataUri (uint8Array : List Nat) (mediaType : String) : String :=
  "data:" ++ mediaType ++ ";base64," ++ String.mk (base64EncodeList uint8Array)

/-- Modelled from the spec: the surface pattern
data:&lt;type&gt;/&lt;subtype&gt;;base64,&lt;payload&gt; named by the
decode contract of section 4.3, with each hole filled by a non-empty
string. Used only to compare the spec's stated failure condition with
the code's. -/
def specDataUriPattern (s : String) : Prop :=
  ∃ ty sub payload : String, ty ≠ "" ∧ sub ≠ "" ∧ payload ≠ "" ∧
    s = "data:" ++ ty ++ "/" ++ sub ++ ";base64," ++ payload

/-- The exact shape of strings accepted by extractBase64FromDataUri:
an image media type with a non-empty semicolon-free subtype and a
non-empty payload free of the four JS line terminators. -/
def imageDataUriPatternStrict (s : String) : Prop :=
  ∃ sub payload : List Char, sub ≠ [] ∧ (∀ c ∈ sub, c ≠ ';') ∧
    payload ≠ [] ∧ (∀ c ∈ payload, c ∉ jsLineTerminators) ∧
    s.data = "data:image/".data ++ sub ++ ";base64,".data ++ payload

/-! ### Single-item pipeline: processMonthGeneration and its request
construction (calendar generation service). The two HTTP-backed
capabilities analyzeInputClient and generateImageClient are external
collaborators; they are modelled as function parameters returning
either the produced string or a thrown error message. -/

/-- JS string trimming (String.prototype.trim): surrounding whitespace
removed from both ends. -/
def jsTrim (s : String) : String :=
  String.mk (((s.data.dropWhile Char.isWhitespace).reverse.dropWhile Char.isWhitespace).reverse)

/-- JS truthiness of a nullable string: null and the empty string are
falsy, every other string is truthy. -/
def jsTruthy : Option String → Bool
  | none => false
  | some s => s ≠ ""

/-- The discriminator sent to the analyze endpoint: 'image' or 'text'. -/
inductive InputType where
  | text
  | image
deriving Repr, DecidableEq

/-- Body of the analyze request: { type, content }. -/
structure AnalyzeInputParams where
  type : InputType
  content : String
deriving Repr, DecidableEq

/-- Body of the generate request: { baseImageUrl, prompt }. -/
structure GenerateImageParams where
  baseImageUrl : String
  prompt : String
deriving Repr, DecidableEq

/-- MonthGenerationData: { baseImage: string | null, editPrompt, name }. -/
structure MonthGenerationData where
  baseImage : Option String
  editPrompt : String
  name : String
deriving Repr, DecidableEq

/-- MonthGenerationResult: { resultImageUrl, generatedPrompt }. -/
structure MonthGenerationResult where
  resultImageUrl : String
  generatedPrompt : String
deriving Repr, DecidableEq

/-- ProcessMonthGenerationParams: { monthData, baseStyleImageUrl }. -/
structure ProcessMonthGenerationParams where
  monthData : MonthGenerationData
  baseStyleImageUrl : String
deriving Repr, DecidableEq

/-- The analyze request built by processMonthGeneration:
type is 'image' when monthData.baseImage is truthy and 'text'
otherwise; content is monthData.baseImage shortcircuited against
monthData.editPrompt.trim() by the JS or-operator. -/
def analyzeRequestOf (monthData : MonthGenerationData) : AnalyzeInputParams :=
  { type := if jsTruthy monthData.baseImage then .image else .text
    content :=
      if jsTruthy monthData.baseImage then monthData.baseImage.getD ""
      else jsTrim monthData.editPrompt }

/-- processMonthGeneration: analyze the month input to obtain a prompt,
then generate the edited image from the base style and that prompt;
the first failing step's error propagates. -/
def processMonthGeneration
    (analyze : AnalyzeInputParams → Except String String)
    (generate : GenerateImageParams → Except String String)
    (params : ProcessMonthGenerationParams) : Except String MonthGenerationResult := do
  let generatedPrompt ← analyze (analyzeRequestOf params.monthData)
  let resultImageUrl ← generate ⟨params.baseStyleImageUrl, generatedPrompt⟩
  return ⟨resultImageUrl, generatedPrompt⟩

/-! ### Batch coordinator: processBatchGeneration. The optional
onProgress callback is modelled as a state-transition function
that, applied to its accumulated state and the progress snapshot,
yields its next state and optionally a thrown error (JS callbacks are
stateful closures and may throw). The coordinator additionally records
the trace of snapshots actually passed to the callback, so that the
observable callback interaction is part of the returned value. -/

/-- Progress snapshot: { completed, total, current }. -/
structure Progress where
  completed : Nat
  total : Nat
  current : Option Nat
deriving Repr, DecidableEq

/-- One entry of BatchGenerationResult.results:
{ index, result: ... | null, error: ... | null }. -/
structure BatchResultEntry where
  index : Nat
  result : Option MonthGenerationResult
  error : Option String
deriving Repr, DecidableEq

/-- Coordinator state threaded through the loop: the results array,
the trace of snapshots passed to the callback, and the callback's own
state. -/
structure BatchState (σ : Type) where
  results : List BatchResultEntry
  trace : List Progress
  cb : σ
deriving Repr, DecidableEq

/-- One onProgress invocation: a no-op without a callback; with one,
the snapshot is recorded and the callback steps its state and may
throw. -/
def progressCall {σ : Type} (onProgress : Option (σ → Progress → σ × Option String))
    (p : Progress) (st : BatchState σ) : BatchState σ × Option String :=
  match onProgress with
  | none => (st, none)
  | some f =>
    let r := f st.cb p
    ({ st with trace := st.trace ++ [p], cb := r.1 }, r.2)

/-- The body of the for-loop of processBatchGeneration, one iteration
per month: pre-item progress call (outside the try, so its throw
propagates), then the pipeline call inside a try whose catch appends a
failure entry and issues the post-item progress call; on success the
post-item progress call still sits inside the try. -/
def batchLoop {σ : Type}
    (pipeline : MonthGenerationData → Except String MonthGenerationResult)
    (onProgress : Option (σ → Progress → σ × Option String)) (total : Nat) :
    List (MonthGenerationData × Nat) → Nat → BatchState σ → Except String (BatchState σ)
  | [], _, st => .ok st
  | (data, index) :: rest, i, st =>
    let pre := progressCall onProgress ⟨i, total, some index⟩ st
    match pre.2 with
    | some e => .error e
    | none =>
      match pipeline data with
      | .ok result =>
        let st1 := { pre.1 with results := pre.1.results ++ [⟨index, some result, none⟩] }
        let post := progressCall onProgress ⟨i + 1, total, none⟩ st1
        match post.2 with
        | none => batchLoop pipeline onProgress total rest (i + 1) post.1
        | some e =>
          let st2 := { post.1 with results := post.1.results ++ [⟨index, none, some e⟩] }
          let post2 := progressCall onProgress ⟨i + 1, total, none⟩ st2
          match post2.2 with
          | some e2 => .error e2
          | none => batchLoop pipeline onProgress total rest (i + 1) post2.1
      | .error e =>
        let st1 := { pre.1 with results := pre.1.results ++ [⟨index, none, some e⟩] }
        let post := progressCall onProgress ⟨i + 1, total, none⟩ st1
        match post.2 with
        | some e2 => .error e2
        | none => batchLoop pipeline onProgress total rest (i + 1) post.1

/-- processBatchGeneration: iterate the months sequentially, driving
each through processMonthGeneration against the shared base style. -/
def processBatchGeneration {σ : Type}
    (analyze : AnalyzeInputParams → Except String String)
    (generate : GenerateImageParams → Except String String)
    (baseStyleImageUrl : String)
    (onProgress : Option (σ → Progress → σ × Option String)) (s0 : σ)
    (months : List (MonthGenerationData × Nat)) : Except String (BatchState σ) :=
  batchLoop (fun data => processMonthGeneration analyze generate ⟨data, baseStyleImageUrl⟩)
    onProgress months.length months 0 ⟨[], [], s0⟩

/-- The entry the coordinator appends for one month when the callback
does not interfere: a success entry or a failure entry, keyed by the
month's original index. -/
def entryOf (pipeline : MonthGenerationData → Except String MonthGenerationResult)
    (m : MonthGenerationData × Nat) : BatchResultEntry :=
  match pipeline m.1 with
  | .ok r => ⟨m.2, some r, none⟩
  | .error e => ⟨m.2, none, some e⟩

/-- The snapshots passed to the callback for the months from loop
position i on: one before and one after each item. -/
def traceOf (total : Nat) : Nat → List (MonthGenerationData × Nat) → List Progress
  | _, [] => []
  | i, (_, index) :: rest =>
    ⟨i, total, some index⟩ :: ⟨i + 1, total, none⟩ :: traceOf total (i + 1) rest

/-- A callback that never throws (a pure observer in the spec's
sense). -/
def CbOk {σ : Type} (f : σ → Progress → σ × Option String) : Prop :=
  ∀ s p, (f s p).2 = none

/-- Exactly one of result/error is present in an entry. -/
def EntryExclusive (e : BatchResultEntry) : Prop :=
  (∃ r, e.result = some r ∧ e.error = none) ∨
    (e.result = none ∧ ∃ msg, e.error = some msg)

/-! ## Lemmas about the data-URI codec -/

theorem dropLit_eq_some (ps : List Char) :
    ∀ s r, dropLit ps s = some r ↔ s = ps ++ r := by
  induction ps with
  | nil => intro s r; simp [dropLit]
  | cons c cs ih =>
    intro s r
    cases s with
    | nil => simp [dropLit]
    | cons d ds =>
      simp only [dropLit, List.cons_append, List.cons.injEq]
      by_cases h : d = c
      · subst h; simp [ih]
      · simp [h]

theorem takeWhile_append_first (p : Char → Bool) (l₁ : List Char) (a : Char) (l₂ : List Char)
    (h1 : ∀ c ∈ l₁, p c = true) (h2 : p a = false) :
    (l₁ ++ a :: l₂).takeWhile p = l₁ ∧ (l₁ ++ a :: l₂).dropWhile p = a :: l₂ := by
  induction l₁ with
  | nil => simp [List.takeWhile_cons, List.dropWhile_cons, h2]
  | cons x xs ih =>
    have hx : p x = true := h1 x (by simp)
    have hrec := ih (fun c hc => h1 c (by simp [hc]))
    simp [List.takeWhile_cons, List.dropWhile_cons, hx, hrec.1, hrec.2]

theorem matchImageDataUri_eq_some (s sub payload : List Char) :
    matchImageDataUri s = some (sub, payload) ↔
      sub ≠ [] ∧ (∀ c ∈ sub, c ≠ ';') ∧
        s = "data:image/".data ++ sub ++ ";base64,".data ++ payload := by
  constructor
  · intro h
    simp only [matchImageDataUri] at h
    split at h
    · exact absurd h (by simp)
    · next s1 hd =>
      rw [dropLit_eq_some] at hd
      split at h
      · exact absurd h (by simp)
      · next hsub =>
        split at h
        · exact absurd h (by simp)
        · next pl hd2 =>
          rw [dropLit_eq_some] at hd2
          injection h with h
          injection h with h1 h2
          subst h1; subst h2; subst hd
          refine ⟨hsub, ?_, ?_⟩
          · intro c hc
            have := List.mem_takeWhile_imp hc
            simpa using this
          · have hdec := List.takeWhile_append_dropWhile
              (p := fun c => decide (c ≠ ';')) (l := s1)
            rw [hd2] at hdec
            conv_lhs => rw [← hdec]
            simp [List.append_assoc]
  · rintro ⟨hne, hfree, rfl⟩
    have hsplit : "data:image/".data ++ sub ++ ";base64,".data ++ payload =
        "data:image/".data ++ (sub ++ (';' :: ("base64,".data ++ payload))) := by
      simp only [List.append_assoc]
      rfl
    simp only [matchImageDataUri, hsplit]
    rw [(dropLit_eq_some _ _ _).2 rfl]
    have htw := takeWhile_append_first (fun c => decide (c ≠ ';')) sub ';'
      ("base64,".data ++ payload) (fun c hc => by simpa using hfree c hc) (by decide)
    simp only [htw.1, htw.2]
    rw [if_neg hne]
    have : (';' : Char) :: ("base64,".data ++ payload) = ";base64,".data ++ payload := rfl
    rw [this, (dropLit_eq_some _ _ _).2 rfl]

/-! ## Lemmas about base64 -/

theorem b64Val_b64Char : ∀ n, n < 64 → b64Val (b64Char n) = n := by decide

theorem b64Char_valid (n : Nat) :
    b64Char n ≠ ';' ∧ b64Char n ∉ jsLineTerminators ∧ b64Char n ≠ '=' := by
  by_cases h : n < 64
  · revert h; revert n
    decide
  · have hd : b64Char n = 'A' := by
      unfold b64Char
      apply List.getD_eq_default
      have : b64Alphabet.length = 64 := by decide
      omega
    rw [hd]
    refine ⟨by decide, by decide, by decide⟩

theorem base64EncodeList_ne_nil (l : List Nat) (h : l ≠ []) :
    base64EncodeList l ≠ [] := by
  match l with
  | [] => exact absurd rfl h
  | [a] => simp [base64EncodeList]
  | [a, b] => simp [base64EncodeList]
  | a :: b :: c :: rest => simp [base64EncodeList]

theorem base64EncodeList_chars :
    ∀ l : List Nat, ∀ c ∈ base64EncodeList l, c ≠ ';' ∧ c ∉ jsLineTerminators := by
  intro l
  induction l using base64EncodeList.induct with
  | case1 => intro c hc; simp [base64EncodeList] at hc
  | case2 a =>
    intro c hc
    simp only [base64EncodeList, List.mem_cons, List.not_mem_nil, or_false] at hc
    rcases hc with rfl | rfl | rfl | rfl
    · exact ⟨(b64Char_valid _).1, (b64Char_valid _).2.1⟩
    · exact ⟨(b64Char_valid _).1, (b64Char_valid _).2.1⟩
    · exact ⟨by decide, by decide⟩
    · exact ⟨by decide, by decide⟩
  | case3 a b =>
    intro c hc
    simp only [base64EncodeList, List.mem_cons, List.not_mem_nil, or_false] at hc
    rcases hc with rfl | rfl | rfl | rfl
    · exact ⟨(b64Char_valid _).1, (b64Char_valid _).2.1⟩
    · exact ⟨(b64Char_valid _).1, (b64Char_valid _).2.1⟩
    · exact ⟨(b64Char_valid _).1, (b64Char_valid _).2.1⟩
    · exact ⟨by decide, by decide⟩
  | case4 a b c rest ih =>
    intro x hx
    simp only [base64EncodeList, List.mem_cons] at hx
    rcases hx with rfl | rfl | rfl | rfl | hx
    · exact ⟨(b64Char_valid _).1, (b64Char_valid _).2.1⟩
    · exact ⟨(b64Char_valid _).1, (b64Char_valid _).2.1⟩
    · exact ⟨(b64Char_valid _).1, (b64Char_valid _).2.1⟩
    · exact ⟨(b64Char_valid _).1, (b64Char_valid _).2.1⟩
    · exact ih x hx

theorem base64_roundtrip :
    ∀ l : List Nat, (∀ b ∈ l, b < 256) →
      base64DecodeList (base64EncodeList l) = l := by
  intro l
  induction l using base64EncodeList.induct with
  | case1 => intro _; rfl
  | case2 a =>
    intro h
    have ha : a < 256 := h a (by simp)
    have e1 : b64Val (b64Char (a / 4)) = a / 4 := b64Val_b64Char _ (by omega)
    have e2 : b64Val (b64Char (a % 4 * 16)) = a % 4 * 16 := b64Val_b64Char _ (by omega)
    simp only [base64EncodeList, base64DecodeList, if_true, e1, e2, List.cons.injEq, and_true]
    generalize hr : a % 4 = r
    omega
  | case3 a b =>
    intro h
    have ha : a < 256 := h a (by simp)
    have hb : b < 256 := h b (by simp)
    have e1 : b64Val (b64Char (a / 4)) = a / 4 := b64Val_b64Char _ (by omega)
    have e2 : b64Val (b64Char (a % 4 * 16 + b / 16)) = a % 4 * 16 + b / 16 :=
      b64Val_b64Char _ (by omega)
    have e3 : b64Val (b64Char (b % 16 * 4)) = b % 16 * 4 := b64Val_b64Char _ (by omega)
    simp only [base64EncodeList, base64DecodeList,
      if_neg ((b64Char_valid (b % 16 * 4)).2.2), if_true, e1, e2, e3,
      List.cons.injEq, and_true]
    generalize hr1 : a % 4 = r1
    generalize hq2 : b / 16 = q2
    generalize hr2 : b % 16 = r2
    constructor
    · omega
    · omega
  | case4 a b c rest ih =>
    intro h
    have ha : a < 256 := h a (by simp)
    have hb : b < 256 := h b (by simp)
    have hc : c < 256 := h c (by simp)
    have hrest := ih (fun x hx => h x (by simp [hx]))
    have e1 : b64Val (b64Char (a / 4)) = a / 4 := b64Val_b64Char _ (by omega)
    have e2 : b64Val (b64Char (a % 4 * 16 + b / 16)) = a % 4 * 16 + b / 16 :=
      b64Val_b64Char _ (by omega)
    have e3 : b64Val (b64Char (b % 16 * 4 + c / 64)) = b % 16 * 4 + c / 64 :=
      b64Val_b64Char _ (by omega)
    have e4 : b64Val (b64Char (c % 64)) = c % 64 := b64Val_b64Char _ (by omega)
    simp only [base64EncodeList, base64DecodeList,
      if_neg ((b64Char_valid (b % 16 * 4 + c / 64)).2.2),
      if_neg ((b64Char_valid (c % 64)).2.2), e1, e2, e3, e4, hrest,
      List.cons.injEq, and_true]
    generalize hr1 : a % 4 = r1
    generalize hq2 : b / 16 = q2
    generalize hr2 : b % 16 = r2
    generalize hq3 : c / 64 = q3
    generalize hr3 : c % 64 = r3
    refine ⟨by omega, by omega, by omega⟩

theorem progressCall_results {σ : Type} (o : Option (σ → Progress → σ × Option String))
    (p : Progress) (st : BatchState σ) :
    (progressCall o p st).1.results = st.results := by
  cases o <;> rfl

theorem batchLoop_none {σ : Type}
    (pipeline : MonthGenerationData → Except String MonthGenerationResult) (total : Nat) :
    ∀ (months : List (MonthGenerationData × Nat)) (i : Nat) (st : BatchState σ),
      batchLoop pipeline none total months i st =
        .ok ⟨st.results ++ months.map (entryOf pipeline), st.trace, st.cb⟩ := by
  intro months
  induction months with
  | nil => intro i st; simp [batchLoop]
  | cons m rest ih =>
    intro i st
    obtain ⟨data, index⟩ := m
    cases hp : pipeline data with
    | ok r => simp [batchLoop, progressCall, hp, ih, entryOf, List.append_assoc]
    | error e => simp [batchLoop, progressCall, hp, ih, entryOf, List.append_assoc]

theorem batchLoop_cbOk {σ : Type}
    (pipeline : MonthGenerationData → Except String MonthGenerationResult)
    (f : σ → Progress → σ × Option String) (hf : CbOk f) (total : Nat) :
    ∀ (months : List (MonthGenerationData × Nat)) (i : Nat) (st : BatchState σ),
      ∃ s, batchLoop pipeline (some f) total months i st =
        .ok ⟨st.results ++ months.map (entryOf pipeline),
          st.trace ++ traceOf total i months, s⟩ := by
  have hf2 : ∀ s p, (f s p).2 = none := hf
  intro months
  induction months with
  | nil => intro i st; exact ⟨st.cb, by simp [batchLoop, traceOf]⟩
  | cons m rest ih =>
    intro i st
    obtain ⟨data, index⟩ := m
    cases hp : pipeline data with
    | ok r =>
      obtain ⟨s, hs⟩ := ih (i + 1)
        ⟨st.results ++ [⟨index, some r, none⟩],
          (st.trace ++ [⟨i, total, some index⟩]) ++ [⟨i + 1, total, none⟩],
          (f (f st.cb ⟨i, total, some index⟩).1 ⟨i + 1, total, none⟩).1⟩
      refine ⟨s, ?_⟩
      simp only [batchLoop, progressCall, hf2, hp, hs]
      simp [entryOf, hp, traceOf, List.append_assoc]
    | error e =>
      obtain ⟨s, hs⟩ := ih (i + 1)
        ⟨st.results ++ [⟨index, none, some e⟩],
          (st.trace ++ [⟨i, total, some index⟩]) ++ [⟨i + 1, total, none⟩],
          (f (f st.cb ⟨i, total, some index⟩).1 ⟨i + 1, total, none⟩).1⟩
      refine ⟨s, ?_⟩
      simp only [batchLoop, progressCall, hf2, hp, hs]
      simp [entryOf, hp, traceOf, List.append_assoc]

theorem batchLoop_results_mono {σ : Type}
    (pipeline : MonthGenerationData → Except String MonthGenerationResult)
    (onProgress : Option (σ → Progress → σ × Option String)) (total : Nat) :
    ∀ (months : List (MonthGenerationData × Nat)) (i : Nat) (st : BatchState σ) out,
      batchLoop pipeline onProgress total months i st = .ok out →
      st.results <+: out.results := by
  intro months
  induction months with
  | nil =>
    intro i st out h
    simp only [batchLoop, Except.ok.injEq] at h
    rw [← h]
  | cons m rest ih =>
    intro i st out h
    obtain ⟨data, index⟩ := m
    simp only [batchLoop] at h
    split at h
    · exact absurd h (by simp)
    · split at h
      · split at h
        · have hpre := ih _ _ _ h
          simp only [progressCall_results] at hpre
          exact (List.prefix_append _ _).trans hpre
        · split at h
          · exact absurd h (by simp)
          · have hpre := ih _ _ _ h
            simp only [progressCall_results] at hpre
            exact ((List.prefix_append _ _).trans (List.prefix_append _ _)).trans hpre
      · split at h
        · exact absurd h (by simp)
        · have hpre := ih _ _ _ h
          simp only [progressCall_results] at hpre
          exact (List.prefix_append _ _).trans hpre

theorem batchLoop_entries_exclusive {σ : Type}
    (pipeline : MonthGenerationData → Except String MonthGenerationResult)
    (onProgress : Option (σ → Progress → σ × Option String)) (total : Nat) :
    ∀ (months : List (MonthGenerationData × Nat)) (i : Nat) (st : BatchState σ) out,
      batchLoop pipeline onProgress total months i st = .ok out →
      (∀ e ∈ st.results, EntryExclusive e) → ∀ e ∈ out.results, EntryExclusive e := by
  intro months
  induction months with
  | nil =>
    intro i st out h hst
    simp only [batchLoop, Except.ok.injEq] at h
    rw [← h]
    exact hst
  | cons m rest ih =>
    intro i st out h hst
    obtain ⟨data, index⟩ := m
    simp only [batchLoop] at h
    split at h
    · exact absurd h (by simp)
    · split at h
      · split at h
        · refine ih _ _ _ h ?_
          simp only [progressCall_results]
          intro e he
          rcases List.mem_append.1 he with he | he
          · exact hst e he
          · simp only [List.mem_singleton] at he
            subst he
            exact Or.inl ⟨_, rfl, rfl⟩
        · split at h
          · exact absurd h (by simp)
          · refine ih _ _ _ h ?_
            simp only [progressCall_results]
            intro e he
            rcases List.mem_append.1 he with he | he
            · rcases List.mem_append.1 he with he | he
              · exact hst e he
              · simp only [List.mem_singleton] at he
                subst he
                exact Or.inl ⟨_, rfl, rfl⟩
            · simp only [List.mem_singleton] at he
              subst he
              exact Or.inr ⟨rfl, _, rfl⟩
      · split at h
        · exact absurd h (by simp)
        · refine ih _ _ _ h ?_
          simp only [progressCall_results]
          intro e he
          rcases List.mem_append.1 he with he | he
          · exact hst e he
          · simp only [List.mem_singleton] at he
            subst he
            exact Or.inr ⟨rfl, _, rfl⟩


theorem entryOf_index
    (pipeline : MonthGenerationData → Except String MonthGenerationResult)
    (m : MonthGenerationData × Nat) : (entryOf pipeline m).index = m.2 := by
  unfold entryOf
  split <;> rfl

theorem entryOf_exclusive
    (pipeline : MonthGenerationData → Except String MonthGenerationResult)
    (m : MonthGenerationData × Nat) : EntryExclusive (entryOf pipeline m) := by
  unfold entryOf
  split
  · exact Or.inl ⟨_, rfl, rfl⟩
  · exact Or.inr ⟨rfl, _, rfl⟩

theorem traceOf_length (total : Nat) :
    ∀ (months : List (MonthGenerationData × Nat)) (i : Nat),
      (traceOf total i months).length = 2 * months.length := by
  intro months
  induction months with
  | nil => intro i; rfl
  | cons m rest ih =>
    intro i
    obtain ⟨data, index⟩ := m
    simp only [traceOf, List.length_cons, ih, List.length]
    omega

theorem traceOf_getElem (total : Nat) :
    ∀ (months : List (MonthGenerationData × Nat)) (i k : Nat) (hk : k < months.length),
      (traceOf total i months)[2 * k]? = some ⟨i + k, total, some (months.get ⟨k, hk⟩).2⟩ ∧
      (traceOf total i months)[2 * k + 1]? = some ⟨i + k + 1, total, none⟩ := by
  intro months
  induction months with
  | nil => intro i k hk; exact absurd hk (by simp)
  | cons m rest ih =>
    intro i k hk
    obtain ⟨data, index⟩ := m
    cases k with
    | zero => simp [traceOf]
    | succ k =>
      have hk2 : k < rest.length := by simpa using Nat.lt_of_succ_lt_succ hk
      have h2 : 2 * (k + 1) = 2 * k + 1 + 1 := by omega
      obtain ⟨ih1, ih2⟩ := ih (i + 1) k hk2
      constructor
      · rw [h2]
        simp only [traceOf, List.getElem?_cons_succ]
        rw [ih1]
        have h3 : i + 1 + k = i + (k + 1) := by omega
        rw [h3]
        rfl
      · rw [h2]
        simp only [traceOf, List.getElem?_cons_succ]
        rw [ih2]
        have h3 : i + 1 + k + 1 = i + (k + 1) + 1 := by omega
        rw [h3]

/-! ## Claim theorems -/

/-- C7: for every non-empty byte sequence, decoding the data URI
produced by uint8ArrayToDataUri bytes "image/png" with the two
extract functions yields back the original bytes (via base64) and the
media type image/png. -/
theorem dataUri_roundtrip (bytes : List Nat) (hne : bytes ≠ [])
    (hlt : ∀ b ∈ bytes, b < 256) :
    (extractBase64FromDataUri (uint8ArrayToDataUri bytes "image/png")).map
        (fun s => base64DecodeList s.data) = .ok bytes ∧
    extractMediaTypeFromDataUri (uint8ArrayToDataUri bytes "image/png") =
      .ok "image/png" := by
  have hchars := base64EncodeList_chars bytes
  have hnil := base64EncodeList_ne_nil bytes hne
  have hm : matchImageDataUri (uint8ArrayToDataUri bytes "image/png").data =
      some ("png".data, base64EncodeList bytes) := by
    apply (matchImageDataUri_eq_some _ _ _).2
    refine ⟨by decide, by decide, ?_⟩
    rfl
  have hcond : ¬(base64EncodeList bytes = [] ∨
      ∃ c ∈ base64EncodeList bytes, c ∈ jsLineTerminators) := by
    rintro (hcon | ⟨c, hc, hct⟩)
    · exact hnil hcon
    · exact (hchars c hc).2 hct
  constructor
  · simp only [extractBase64FromDataUri, hm]
    rw [if_neg hcond]
    simp only [Except.map]
    rw [base64_roundtrip bytes hlt]
  · simp only [extractMediaTypeFromDataUri, hm]
    rfl

/-- C7 witness: the roundtrip at the PNG magic bytes. -/
theorem dataUri_roundtrip_witness :
    (extractBase64FromDataUri (uint8ArrayToDataUri [137, 80, 78, 71] "image/png")).map
        (fun s => base64DecodeList s.data) = .ok [137, 80, 78, 71] ∧
    extractMediaTypeFromDataUri (uint8ArrayToDataUri [137, 80, 78, 71] "image/png") =
      .ok "image/png" :=
  dataUri_roundtrip [137, 80, 78, 71] (by decide) (by decide)

/-- C8 counterexample: the string data:text/plain;base64,AAAA matches
the spec's pattern data:<type>/<subtype>;base64,<payload>, yet
extractBase64FromDataUri rejects it, because the code's regex fixes
the type to image. -/
theorem extractBase64_spec_pattern_ce :
    specDataUriPattern "data:text/plain;base64,AAAA" ∧
    extractBase64FromDataUri "data:text/plain;base64,AAAA" =
      .error "Invalid data URI format" :=
  ⟨⟨"text", "plain", "AAAA", by decide, by decide, by decide, by decide⟩, rfl⟩

/-- C8 (amended): extractBase64FromDataUri fails with the
invalid-format error exactly when the input does not match
data:image/<subtype>;base64,<payload> with a non-empty semicolon-free
subtype and a non-empty payload free of the four JS line terminators;
in particular not-a-data-uri fails. -/
theorem extractBase64_error_iff (s : String) :
    (extractBase64FromDataUri s = .error "Invalid data URI format" ↔
      ¬ imageDataUriPatternStrict s) ∧
    extractBase64FromDataUri "not-a-data-uri" = .error "Invalid data URI format" := by
  refine ⟨?_, rfl⟩
  cases hm : matchImageDataUri s.data with
  | none =>
    simp only [extractBase64FromDataUri, hm]
    refine iff_of_true trivial ?_
    rintro ⟨sub, payload, h1, h2, h3, h4, h5⟩
    have := (matchImageDataUri_eq_some s.data sub payload).2 ⟨h1, h2, h5⟩
    rw [hm] at this
    exact absurd this (by simp)
  | some pr =>
    obtain ⟨sub, payload⟩ := pr
    have hdecomp := (matchImageDataUri_eq_some s.data sub payload).1 hm
    simp only [extractBase64FromDataUri, hm]
    by_cases hcond : payload = [] ∨ ∃ c ∈ payload, c ∈ jsLineTerminators
    · rw [if_pos hcond]
      refine iff_of_true rfl ?_
      rintro ⟨sub2, payload2, h1, h2, h3, h4, h5⟩
      have h6 := (matchImageDataUri_eq_some s.data sub2 payload2).2 ⟨h1, h2, h5⟩
      rw [hm] at h6
      injection h6 with h6
      injection h6 with h6a h6b
      subst h6a
      subst h6b
      rcases hcond with hcon | ⟨c, hc, hct⟩
      · exact h3 hcon
      · exact h4 c hc hct
    · rw [if_neg hcond]
      push_neg at hcond
      refine iff_of_false (by simp) ?_
      intro hnot
      exact hnot ⟨sub, payload, hdecomp.1, hdecomp.2.1, hcond.1, hcond.2, hdecomp.2.2⟩

/-- C9 counterexample: a media type containing ;base64, defeats the
empty-payload failure — the encoded empty byte array round-trips into
a successful extraction. -/
theorem uint8ArrayToDataUri_empty_ce :
    uint8ArrayToDataUri [] "image/png;base64,x" = "data:image/png;base64,x;base64," ∧
    extractBase64FromDataUri "data:image/png;base64,x;base64," = .ok "x;base64," :=
  ⟨rfl, rfl⟩

/-- C9 (amended): for every semicolon-free media type, encoding the
empty byte array yields data:<mediaType>;base64, with an empty
payload, and extractBase64FromDataUri rejects that string (its
payload capture needs at least one character). -/
theorem uint8ArrayToDataUri_empty (mt : String) (hsemi : ';' ∉ mt.data) :
    uint8ArrayToDataUri [] mt = "data:" ++ mt ++ ";base64," ∧
    extractBase64FromDataUri ("data:" ++ mt ++ ";base64,") =
      .error "Invalid data URI format" := by
  constructor
  · obtain ⟨l⟩ := mt
    show String.mk _ = String.mk _
    simp [uint8ArrayToDataUri, base64EncodeList]
  · have hdata : ("data:" ++ mt ++ ";base64,").data =
        ("data:".data ++ mt.data) ++ ';' :: "base64,".data := by
      simp [String.data_append, List.append_assoc]
    cases hm : matchImageDataUri ("data:" ++ mt ++ ";base64,").data with
    | none => simp only [extractBase64FromDataUri, hm]
    | some pr =>
      obtain ⟨sub, payload⟩ := pr
      obtain ⟨hne, hfree, hdecomp⟩ := (matchImageDataUri_eq_some _ sub payload).1 hm
      have hfreeA : ∀ c ∈ "data:".data ++ mt.data, (fun c => decide (c ≠ ';')) c = true := by
        intro c hc
        simp only [decide_eq_true_eq]
        rcases List.mem_append.1 hc with hc | hc
        · exact (by decide : ∀ c ∈ "data:".data, c ≠ ';') c hc
        · intro hcs
          subst hcs
          exact hsemi hc
      have dA := (takeWhile_append_first (fun c => decide (c ≠ ';'))
        ("data:".data ++ mt.data) ';' "base64,".data hfreeA (by decide)).2
      have hdataB : ("data:" ++ mt ++ ";base64,").data =
          ("data:image/".data ++ sub) ++ ';' :: ("base64,".data ++ payload) := by
        rw [hdecomp]
        simp [List.append_assoc]
      have hfreeB : ∀ c ∈ "data:image/".data ++ sub,
          (fun c => decide (c ≠ ';')) c = true := by
        intro c hc
        simp only [decide_eq_true_eq]
        rcases List.mem_append.1 hc with hc | hc
        · exact (by decide : ∀ c ∈ "data:image/".data, c ≠ ';') c hc
        · exact hfree c hc
      have dB := (takeWhile_append_first (fun c => decide (c ≠ ';'))
        ("data:image/".data ++ sub) ';' ("base64,".data ++ payload) hfreeB (by decide)).2
      rw [← hdata] at dA
      rw [← hdataB] at dB
      have heq := dA.symm.trans dB
      injection heq with heq1 heq2
      have hlen := congrArg List.length heq2
      simp only [List.length_append] at hlen
      have hpl : payload = [] := List.eq_nil_of_length_eq_zero (by omega)
      simp only [extractBase64FromDataUri, hm]
      rw [if_pos (Or.inl hpl)]

/-- C9 witness: the amended statement at the media type image/png. -/
theorem uint8ArrayToDataUri_empty_witness :
    uint8ArrayToDataUri [] "image/png" = "data:image/png;base64," ∧
    extractBase64FromDataUri "data:image/png;base64," =
      .error "Invalid data URI format" := by
  obtain ⟨h1, h2⟩ := uint8ArrayToDataUri_empty "image/png" (by decide)
  exact ⟨h1, h2⟩

/-- C6 counterexample: a month whose baseImage is present but equal
to the empty string carries an image in the claim's sense, yet the
JS truthiness test routes it to a text analysis request with the
trimmed editPrompt, not an image request. -/
theorem analyzeRequest_empty_image_ce :
    (⟨some "", " hi ", "Jan"⟩ : MonthGenerationData).baseImage = some "" ∧
    analyzeRequestOf ⟨some "", " hi ", "Jan"⟩ = ⟨.text, "hi"⟩ ∧
    InputType.text ≠ InputType.image :=
  ⟨rfl, by decide, by decide⟩

/-- C6 (amended): the analysis request carries kind image and the
image payload exactly when the month input carries a non-empty image
(JS-truthy baseImage); with a null or empty baseImage the request
carries kind text and the whitespace-trimmed description. -/
theorem analyzeRequest_kind (md : MonthGenerationData) :
    (jsTruthy md.baseImage = true →
      ∃ img, md.baseImage = some img ∧ img ≠ "" ∧
        analyzeRequestOf md = ⟨.image, img⟩) ∧
    (jsTruthy md.baseImage = false →
      analyzeRequestOf md = ⟨.text, jsTrim md.editPrompt⟩) := by
  obtain ⟨bi, ep, nm⟩ := md
  cases bi with
  | none =>
    refine ⟨fun h => absurd h (by simp [jsTruthy]), fun _ => ?_⟩
    simp [analyzeRequestOf, jsTruthy]
  | some s =>
    by_cases hs : s = ""
    · subst hs
      refine ⟨fun h => absurd h (by simp [jsTruthy]), fun _ => ?_⟩
      simp [analyzeRequestOf, jsTruthy]
    · refine ⟨fun _ => ⟨s, rfl, hs, ?_⟩, fun h => absurd h (by simp [jsTruthy, hs])⟩
      simp [analyzeRequestOf, jsTruthy, hs]

/-- C6 witness: the amended statement evaluated at a month with an
image and at a month with text only. -/
theorem analyzeRequest_kind_witness :
    analyzeRequestOf ⟨some "imgdata", " t ", "m"⟩ = ⟨.image, "imgdata"⟩ ∧
    analyzeRequestOf ⟨none, " t ", "m"⟩ = ⟨.text, "t"⟩ := by
  constructor
  · obtain ⟨img, h1, h2, h3⟩ :=
      (analyzeRequest_kind ⟨some "imgdata", " t ", "m"⟩).1 (by decide)
    injection h1 with h1
    subst h1
    exact h3
  · have h := (analyzeRequest_kind ⟨none, " t ", "m"⟩).2 (by decide)
    exact h.trans (by decide)

/-- C1: with a non-throwing progress callback, processBatchGeneration
returns exactly one results entry per input month, in input order —
entry k carries the k-th month's original index — regardless of which
pipeline invocations fail. -/
theorem processBatchGeneration_one_entry_per_item
    (analyze : AnalyzeInputParams → Except String String)
    (generate : GenerateImageParams → Except String String) (url : String)
    {σ : Type} (f : σ → Progress → σ × Option String) (hf : CbOk f) (s0 : σ)
    (months : List (MonthGenerationData × Nat)) (hne : months ≠ []) :
    ∃ out, processBatchGeneration analyze generate url (some f) s0 months = .ok out ∧
      out.results.length = months.length ∧
      ∀ k (hk : k < months.length),
        out.results[k]?.map BatchResultEntry.index = some (months.get ⟨k, hk⟩).2 := by
  obtain ⟨s, hs⟩ := batchLoop_cbOk
    (fun data => processMonthGeneration analyze generate ⟨data, url⟩) f hf
    months.length months 0 ⟨[], [], s0⟩
  refine ⟨⟨months.map (entryOf (fun data => processMonthGeneration analyze generate ⟨data, url⟩)),
    traceOf months.length 0 months, s⟩, ?_, ?_, ?_⟩
  · simpa [processBatchGeneration] using hs
  · exact List.length_map _ _
  · intro k hk
    show (months.map (entryOf (fun data =>
      processMonthGeneration analyze generate ⟨data, url⟩)))[k]?.map BatchResultEntry.index =
      some (months.get ⟨k, hk⟩).2
    simp [List.getElem?_map, List.getElem?_eq_getElem, hk, entryOf_index]

/-- C2: if the pipeline invocation for month k fails with error e,
the batch still returns ok (the error never propagates out), with a
results entry for month k holding that error and no result, and with
every other month still represented in the results. -/
theorem processBatchGeneration_failure_isolated
    (analyze : AnalyzeInputParams → Except String String)
    (generate : GenerateImageParams → Except String String) (url : String)
    {σ : Type} (f : σ → Progress → σ × Option String) (hf : CbOk f) (s0 : σ)
    (months : List (MonthGenerationData × Nat)) (k : Nat) (hk : k < months.length)
    (e : String)
    (hfail : processMonthGeneration analyze generate
      ⟨(months.get ⟨k, hk⟩).1, url⟩ = .error e) :
    ∃ out, processBatchGeneration analyze generate url (some f) s0 months = .ok out ∧
      out.results.length = months.length ∧
      out.results[k]? = some ⟨(months.get ⟨k, hk⟩).2, none, some e⟩ := by
  obtain ⟨s, hs⟩ := batchLoop_cbOk
    (fun data => processMonthGeneration analyze generate ⟨data, url⟩) f hf
    months.length months 0 ⟨[], [], s0⟩
  refine ⟨⟨months.map (entryOf (fun data => processMonthGeneration analyze generate ⟨data, url⟩)),
    traceOf months.length 0 months, s⟩, ?_, ?_, ?_⟩
  · simpa [processBatchGeneration] using hs
  · exact List.length_map _ _
  · show (months.map (entryOf (fun data =>
      processMonthGeneration analyze generate ⟨data, url⟩)))[k]? =
      some ⟨(months.get ⟨k, hk⟩).2, none, some e⟩
    have hfail2 : processMonthGeneration analyze generate ⟨months[k].1, url⟩ = .error e := by
      simpa [List.get_eq_getElem] using hfail
    simp [List.getElem?_map, List.getElem?_eq_getElem, hk, entryOf, hfail2]

/-- C3: with a callback supplied (and observing, never throwing), the
batch invokes it exactly 2N times: call 2k announces month k with
completed k and its original index, call 2k+1 follows month k with
completed k+1 and no current index; the final call carries
completed = N. Without a callback the batch produces the identical
results with an empty call trace. -/
theorem processBatchGeneration_progress
    (analyze : AnalyzeInputParams → Except String String)
    (generate : GenerateImageParams → Except String String) (url : String)
    {σ : Type} (f : σ → Progress → σ × Option String) (hf : CbOk f) (s0 : σ)
    (months : List (MonthGenerationData × Nat)) :
    ∃ out, processBatchGeneration analyze generate url (some f) s0 months = .ok out ∧
      out.trace.length = 2 * months.length ∧
      (∀ k (hk : k < months.length),
        out.trace[2 * k]? = some ⟨k, months.length, some (months.get ⟨k, hk⟩).2⟩ ∧
        out.trace[2 * k + 1]? = some ⟨k + 1, months.length, none⟩) ∧
      (months ≠ [] → out.trace.getLast? = some ⟨months.length, months.length, none⟩) ∧
      ∃ outN, processBatchGeneration analyze generate url none s0 months = .ok outN ∧
        outN.trace = [] ∧ outN.results = out.results := by
  obtain ⟨s, hs⟩ := batchLoop_cbOk
    (fun data => processMonthGeneration analyze generate ⟨data, url⟩) f hf
    months.length months 0 ⟨[], [], s0⟩
  refine ⟨⟨months.map (entryOf (fun data => processMonthGeneration analyze generate ⟨data, url⟩)),
    traceOf months.length 0 months, s⟩, ?_, ?_, ?_, ?_, ?_⟩
  · simpa [processBatchGeneration] using hs
  · exact traceOf_length months.length months 0
  · intro k hk
    have h := traceOf_getElem months.length months 0 k hk
    simpa using h
  · intro hne
    have hlen := traceOf_length months.length months 0
    have hpos : 0 < months.length := List.length_pos.2 hne
    have hk : months.length - 1 < months.length := by omega
    have h := (traceOf_getElem months.length months 0 (months.length - 1) hk).2
    show (traceOf months.length 0 months).getLast? = _
    rw [List.getLast?_eq_getElem?, hlen]
    have hidx : 2 * months.length - 1 = 2 * (months.length - 1) + 1 := by omega
    rw [hidx, h]
    have : 0 + (months.length - 1) + 1 = months.length := by omega
    rw [this]
  · refine ⟨⟨months.map (entryOf (fun data =>
      processMonthGeneration analyze generate ⟨data, url⟩)), [], s0⟩, ?_, rfl, rfl⟩
    have hnone := batchLoop_none
      (fun data => processMonthGeneration analyze generate ⟨data, url⟩)
      months.length months 0 (⟨[], [], s0⟩ : BatchState σ)
    simpa [processBatchGeneration] using hnone

/-- C4 (amended): processBatchGeneration performs no emptiness
validation: called on an empty month sequence it returns successfully
with an empty results list, no progress call and the callback state
untouched — it does not fail with a validation error. -/
theorem processBatchGeneration_empty
    (analyze : AnalyzeInputParams → Except String String)
    (generate : GenerateImageParams → Except String String) (url : String)
    {σ : Type} (onProgress : Option (σ → Progress → σ × Option String)) (s0 : σ) :
    processBatchGeneration analyze generate url onProgress s0 [] = .ok ⟨[], [], s0⟩ := rfl

/-- C5: every entry of a returned results sequence has exactly one of
result/error present — under any callback behaviour, including a
throwing one — and when every pipeline invocation succeeds and the
callback does not throw, every entry carries a result and no error. -/
theorem processBatchGeneration_exclusive
    (analyze : AnalyzeInputParams → Except String String)
    (generate : GenerateImageParams → Except String String) (url : String)
    {σ : Type} (s0 : σ) :
    (∀ (onProgress : Option (σ → Progress → σ × Option String)) months out,
      processBatchGeneration analyze generate url onProgress s0 months = .ok out →
      ∀ e ∈ out.results, EntryExclusive e) ∧
    (∀ (f : σ → Progress → σ × Option String), CbOk f →
      ∀ months : List (MonthGenerationData × Nat),
      (∀ m ∈ months, ∃ r, processMonthGeneration analyze generate ⟨m.1, url⟩ = Except.ok r) →
      ∃ out, processBatchGeneration analyze generate url (some f) s0 months = .ok out ∧
        ∀ e ∈ out.results, ∃ r, e.result = some r ∧ e.error = none) := by
  constructor
  · intro onProgress months out h
    refine batchLoop_entries_exclusive
      (fun data => processMonthGeneration analyze generate ⟨data, url⟩)
      onProgress months.length months 0 ⟨[], [], s0⟩ out h ?_
    intro e he
    simp at he
  · intro f hf months hall
    obtain ⟨s, hs⟩ := batchLoop_cbOk
      (fun data => processMonthGeneration analyze generate ⟨data, url⟩) f hf
      months.length months 0 ⟨[], [], s0⟩
    refine ⟨⟨months.map (entryOf (fun data =>
      processMonthGeneration analyze generate ⟨data, url⟩)),
      traceOf months.length 0 months, s⟩, ?_, ?_⟩
    · simpa [processBatchGeneration] using hs
    · intro e he
      have he2 : e ∈ months.map (entryOf (fun data =>
        processMonthGeneration analyze generate ⟨data, url⟩)) := he
      obtain ⟨m, hm, rfl⟩ := List.mem_map.1 he2
      obtain ⟨r, hr⟩ := hall m hm
      exact ⟨r, by simp [entryOf, hr], by simp [entryOf, hr]⟩

/-- C10: the post-success progress call sits inside the per-item
catch: when the pipeline for the first month succeeds but the
callback throws on the following progress call (and not on the
catch's retry), the coordinator appends a second, failure entry for
the same index and continues with the remaining months from the
doubled state; any ok outcome of the whole batch therefore starts
with the success entry and the failure entry for that one month. -/
theorem processBatchGeneration_callback_throw_duplicates
    (analyze : AnalyzeInputParams → Except String String)
    (generate : GenerateImageParams → Except String String) (url : String)
    {σ : Type} (f : σ → Progress → σ × Option String) (s0 : σ)
    (d : MonthGenerationData) (idx : Nat) (rest : List (MonthGenerationData × Nat))
    (r : MonthGenerationResult) (e : String)
    (h1 : (f s0 ⟨0, rest.length + 1, some idx⟩).2 = none)
    (hp : processMonthGeneration analyze generate ⟨d, url⟩ = .ok r)
    (h2 : (f (f s0 ⟨0, rest.length + 1, some idx⟩).1 ⟨1, rest.length + 1, none⟩).2 = some e)
    (h3 : (f (f (f s0 ⟨0, rest.length + 1, some idx⟩).1 ⟨1, rest.length + 1, none⟩).1
        ⟨1, rest.length + 1, none⟩).2 = none) :
    processBatchGeneration analyze generate url (some f) s0 ((d, idx) :: rest) =
      batchLoop (fun data => processMonthGeneration analyze generate ⟨data, url⟩)
        (some f) (rest.length + 1) rest 1
        ⟨[⟨idx, some r, none⟩, ⟨idx, none, some e⟩],
          [⟨0, rest.length + 1, some idx⟩, ⟨1, rest.length + 1, none⟩,
            ⟨1, rest.length + 1, none⟩],
          (f (f (f s0 ⟨0, rest.length + 1, some idx⟩).1 ⟨1, rest.length + 1, none⟩).1
            ⟨1, rest.length + 1, none⟩).1⟩ ∧
    ∀ out, processBatchGeneration analyze generate url (some f) s0 ((d, idx) :: rest) =
        .ok out →
      ∃ t, out.results = ⟨idx, some r, none⟩ :: ⟨idx, none, some e⟩ :: t := by
  have hstep : processBatchGeneration analyze generate url (some f) s0 ((d, idx) :: rest) =
      batchLoop (fun data => processMonthGeneration analyze generate ⟨data, url⟩)
        (some f) (rest.length + 1) rest 1
        ⟨[⟨idx, some r, none⟩, ⟨idx, none, some e⟩],
          [⟨0, rest.length + 1, some idx⟩, ⟨1, rest.length + 1, none⟩,
            ⟨1, rest.length + 1, none⟩],
          (f (f (f s0 ⟨0, rest.length + 1, some idx⟩).1 ⟨1, rest.length + 1, none⟩).1
            ⟨1, rest.length + 1, none⟩).1⟩ := by
    simp only [processBatchGeneration, List.length_cons, batchLoop, progressCall,
      h1, hp, h2, h3]
    norm_num
  refine ⟨hstep, ?_⟩
  intro out hout
  rw [hstep] at hout
  have hpre := batchLoop_results_mono
    (fun data => processMonthGeneration analyze generate ⟨data, url⟩)
    (some f) (rest.length + 1) rest 1 _ out hout
  obtain ⟨t, ht⟩ := hpre
  exact ⟨t, ht.symm⟩

/-- C1 witness: a two-month batch under a recording callback. -/
theorem processBatchGeneration_one_entry_per_item_witness :
    ∃ out, processBatchGeneration (fun _ => .ok "p") (fun _ => .ok "img") "u"
        (some (fun (s : List Progress) p => (s ++ [p], none))) []
        ([(⟨none, "x", "Jan"⟩, 4), (⟨none, "y", "Feb"⟩, 9)] :
          List (MonthGenerationData × Nat)) = .ok out ∧
      out.results.length = ([(⟨none, "x", "Jan"⟩, 4), (⟨none, "y", "Feb"⟩, 9)] :
        List (MonthGenerationData × Nat)).length ∧
      ∀ k (hk : k < ([(⟨none, "x", "Jan"⟩, 4), (⟨none, "y", "Feb"⟩, 9)] :
          List (MonthGenerationData × Nat)).length),
        out.results[k]?.map BatchResultEntry.index =
          some (([(⟨none, "x", "Jan"⟩, 4), (⟨none, "y", "Feb"⟩, 9)] :
            List (MonthGenerationData × Nat)).get ⟨k, hk⟩).2 :=
  processBatchGeneration_one_entry_per_item _ _ "u" _ (fun _ _ => rfl) [] _ (by decide)

/-- C2 witness: a two-month batch whose first month's analysis call
fails. -/
theorem processBatchGeneration_failure_isolated_witness :
    ∃ out, processBatchGeneration
        (fun q => if q.content = "x" then .error "boom" else .ok "p")
        (fun _ => .ok "img") "u" (some (fun (s : Unit) _ => (s, none))) ()
        ([(⟨none, "x", "Jan"⟩, 0), (⟨none, "y", "Feb"⟩, 1)] :
          List (MonthGenerationData × Nat)) = .ok out ∧
      out.results.length = ([(⟨none, "x", "Jan"⟩, 0), (⟨none, "y", "Feb"⟩, 1)] :
        List (MonthGenerationData × Nat)).length ∧
      out.results[0]? = some ⟨(([(⟨none, "x", "Jan"⟩, 0), (⟨none, "y", "Feb"⟩, 1)] :
        List (MonthGenerationData × Nat)).get ⟨0, by decide⟩).2, none, some "boom"⟩ :=
  processBatchGeneration_failure_isolated _ _ "u" _ (fun _ _ => rfl) () _ 0 (by decide)
    "boom" rfl

/-- C3 witness: a one-month batch under a recording callback. -/
theorem processBatchGeneration_progress_witness :
    ∃ out, processBatchGeneration (fun _ => .ok "p") (fun _ => .ok "img") "u"
        (some (fun (s : List Progress) p => (s ++ [p], none))) []
        ([(⟨none, "x", "Jan"⟩, 7)] : List (MonthGenerationData × Nat)) = .ok out ∧
      out.trace.length = 2 * ([(⟨none, "x", "Jan"⟩, 7)] :
        List (MonthGenerationData × Nat)).length ∧
      (∀ k (hk : k < ([(⟨none, "x", "Jan"⟩, 7)] :
          List (MonthGenerationData × Nat)).length),
        out.trace[2 * k]? = some ⟨k, ([(⟨none, "x", "Jan"⟩, 7)] :
          List (MonthGenerationData × Nat)).length,
          some (([(⟨none, "x", "Jan"⟩, 7)] :
            List (MonthGenerationData × Nat)).get ⟨k, hk⟩).2⟩ ∧
        out.trace[2 * k + 1]? = some ⟨k + 1, ([(⟨none, "x", "Jan"⟩, 7)] :
          List (MonthGenerationData × Nat)).length, none⟩) ∧
      (([(⟨none, "x", "Jan"⟩, 7)] : List (MonthGenerationData × Nat)) ≠ [] →
        out.trace.getLast? = some ⟨([(⟨none, "x", "Jan"⟩, 7)] :
          List (MonthGenerationData × Nat)).length, ([(⟨none, "x", "Jan"⟩, 7)] :
          List (MonthGenerationData × Nat)).length, none⟩) ∧
      ∃ outN, processBatchGeneration (fun _ => .ok "p") (fun _ => .ok "img") "u" none
          ([] : List Progress)
          ([(⟨none, "x", "Jan"⟩, 7)] : List (MonthGenerationData × Nat)) = .ok outN ∧
        outN.trace = [] ∧ outN.results = out.results :=
  processBatchGeneration_progress _ _ "u" _ (fun _ _ => rfl) [] _

/-- C5 witness: both parts at a one-month always-succeeding batch. -/
theorem processBatchGeneration_exclusive_witness :
    EntryExclusive ⟨0, some ⟨"img", "p"⟩, none⟩ ∧
    ∃ out, processBatchGeneration (fun _ => .ok "p") (fun _ => .ok "img") "u"
        (some (fun (s : Unit) _ => (s, none))) ()
        ([(⟨none, "x", "Jan"⟩, 0)] : List (MonthGenerationData × Nat)) = .ok out ∧
      ∀ e ∈ out.results, ∃ r, e.result = some r ∧ e.error = none := by
  constructor
  · exact (processBatchGeneration_exclusive (fun _ => .ok "p") (fun _ => .ok "img")
      "u" ()).1 (none : Option (Unit → Progress → Unit × Option String))
      [(⟨none, "x", "Jan"⟩, 0)] ⟨[⟨0, some ⟨"img", "p"⟩, none⟩], [], ()⟩ rfl
      ⟨0, some ⟨"img", "p"⟩, none⟩ (by simp)
  · exact (processBatchGeneration_exclusive (fun _ => .ok "p") (fun _ => .ok "img")
      "u" ()).2 (fun _ _ => ((), none)) (fun _ _ => rfl)
      [(⟨none, "x", "Jan"⟩, 0)]
      (fun m hm => ⟨⟨"img", "p"⟩, rfl⟩)

/-- C10 witness: a two-month batch whose callback throws exactly on
its second invocation. -/
theorem processBatchGeneration_callback_throw_duplicates_witness :
    processBatchGeneration (fun _ => .ok "p") (fun _ => .ok "img") "u"
      (some (fun (s : Nat) _ => (s + 1, if s = 1 then some "cb" else none))) 0
      (((⟨none, "x", "Jan"⟩ : MonthGenerationData), 0) ::
        ([(⟨none, "y", "Feb"⟩, 1)] : List (MonthGenerationData × Nat))) =
      batchLoop (fun data => processMonthGeneration (fun _ => .ok "p")
        (fun _ => .ok "img") ⟨data, "u"⟩)
        (some (fun (s : Nat) _ => (s + 1, if s = 1 then some "cb" else none)))
        (([(⟨none, "y", "Feb"⟩, 1)] : List (MonthGenerationData × Nat)).length + 1)
        ([(⟨none, "y", "Feb"⟩, 1)] : List (MonthGenerationData × Nat)) 1
        ⟨[⟨0, some ⟨"img", "p"⟩, none⟩, ⟨0, none, some "cb"⟩],
          [⟨0, 2, some 0⟩, ⟨1, 2, none⟩, ⟨1, 2, none⟩], 3⟩ ∧
    ∃ t, ([⟨0, some ⟨"img", "p"⟩, none⟩, ⟨0, none, some "cb"⟩,
        ⟨1, some ⟨"img", "p"⟩, none⟩] : List BatchResultEntry) =
      ⟨0, some ⟨"img", "p"⟩, none⟩ :: ⟨0, none, some "cb"⟩ :: t := by
  have h := processBatchGeneration_callback_throw_duplicates
    (fun _ => .ok "p") (fun _ => .ok "img") "u"
    (fun (s : Nat) _ => (s + 1, if s = 1 then some "cb" else none)) 0
    ⟨none, "x", "Jan"⟩ 0 ([(⟨none, "y", "Feb"⟩, 1)] : List (MonthGenerationData × Nat))
    ⟨"img", "p"⟩ "cb" rfl rfl rfl rfl
  refine ⟨h.1, ?_⟩
  have h2 := h.2 ⟨[⟨0, some ⟨"img", "p"⟩, none⟩, ⟨0, none, some "cb"⟩,
    ⟨1, some ⟨"img", "p"⟩, none⟩],
    [⟨0, 2, some 0⟩, ⟨1, 2, none⟩, ⟨1, 2, none⟩, ⟨1, 2, some 1⟩, ⟨2, 2, none⟩], 5⟩ rfl
  exact h2
/-- C4 counterexample: on an empty month list the code returns ok with
an empty results list instead of failing with a validation error. -/
theorem processBatchGeneration_empty_ce :
    processBatchGeneration (fun _ => .ok "p") (fun _ => .ok "img") "url"
      (none : Option (Unit → Progress → Unit × Option String)) () [] =
      .ok ⟨[], [], ()⟩ := rfl

end BananaWrapped
